import Mathlib

/-!
Verification of the Chimera event-store core and its memory-actor collaborator.

The durable event store (event record, write buffer and flush pipeline,
in-memory backend, advisory-lock key derivation, serialization) is embedded
from the specification; the memory actor is embedded from
`src/actors/memory_actor.py`.
-/

namespace Chimera

/-! ## JSON-like structured payloads -/

mutual
/-- Structured event payload: mapping or list nodes with scalar leaves,
as stored in the self-describing textual `data` column. -/
inductive Json where
  | null : Json
  | bool (b : Bool) : Json
  | num (n : Int) : Json
  | str (s : String) : Json
  | arr (elems : JsonList) : Json
  | obj (fields : JsonFields) : Json
deriving DecidableEq

/-- A list of JSON values (elements of an array). -/
inductive JsonList where
  | nil : JsonList
  | cons (head : Json) (tail : JsonList) : JsonList
deriving DecidableEq

/-- Key/value members of a JSON object. -/
inductive JsonFields where
  | nil : JsonFields
  | cons (key : String) (value : Json) (tail : JsonFields) : JsonFields
deriving DecidableEq
end

/-! ## Event record

Modelled from the spec §3/§4.1: identity, stream, type, payload,
per-stream version, wall-clock timestamp, correlation metadata. The
identifier and timestamp are kept abstract as a string and an instant
counter. -/

/-- The immutable unit of storage (`BaseEvent` in `actors/events`). -/
structure BaseEvent where
  event_id : String
  stream_id : String
  event_type : String
  data : Json
  version : Nat
  timestamp : Nat
  correlation_id : Option String
deriving DecidableEq

/-! ## In-memory backend (spec §4.4.1)

Modelled from the spec: a mapping from `stream_id` to an ordered,
in-memory list of events. -/

/-- The in-memory backend state: the mapping guarded by the store's lock. -/
def StoreMap := String → List BaseEvent

/-- The store before any append: every stream is empty. -/
def emptyStore : StoreMap := fun _ => []

/-- `get_stream`: the ordered event sequence of one stream; empty for
unknown streams. -/
def get_stream (store : StoreMap) (stream_id : String) : List BaseEvent :=
  store stream_id

/-- Error kinds surfaced by the backend's append path. -/
inductive StoreError where
  | concurrencyConflict : StoreError
deriving DecidableEq

/-- Modelled from the spec: `write_stream_events` of the in-memory backend
(missing `actors/events/event_store.py`). Commits the batch atomically and
fails with `ConcurrencyConflict` if the first event's version does not
equal the current length of the stream's list; on failure the mapping is
returned unchanged. -/
def write_stream_events (store : StoreMap) (stream_id : String)
    (events : List BaseEvent) : StoreMap × Option StoreError :=
  match events with
  | [] => (store, none)
  | e :: _ =>
      if e.version = (store stream_id).length then
        ((fun s => if s = stream_id then store s ++ events else store s), none)
      else
        (store, some .concurrencyConflict)

/-- Modelled from the spec: `append_event` for a single event — the version
manager validates the event's version inside the backend's critical
section, then the event is committed to its stream. -/
def append_event (store : StoreMap) (e : BaseEvent) : StoreMap × Option StoreError :=
  write_stream_events store e.stream_id [e]

/-- Run a sequence of append attempts, keeping the state produced by the
successful ones (failed appends leave the store unchanged). -/
def run_appends (store : StoreMap) (es : List BaseEvent) : StoreMap :=
  es.foldl (fun st e => (append_event st e).1) store

/-! ## Write buffer & flush pipeline (spec §4.3)

Modelled from the spec: the process-local ordered buffer, the partition of
a flush snapshot by `stream_id` preserving intra-stream order, and the
retriable-failure path that iterates a failed partition in reverse and
pushes each event to the front of the buffer (the `appendleft` loop
exercised by `test_1_event_order_preservation`). -/

/-- The events of one stream inside a buffer snapshot, in buffer order. -/
def streamEvents (stream_id : String) (events : List BaseEvent) : List BaseEvent :=
  events.filter (fun e => e.stream_id == stream_id)

/-- Modelled from the spec: re-insert a failed partition at the head of the
buffer by iterating the partition in reverse and pushing each event to the
front (`for event in reversed(partition): buffer.appendleft(event)`). -/
def reinsert_front (partition : List BaseEvent) (buffer : List BaseEvent) :
    List BaseEvent :=
  partition.reverse.foldl (fun buf e => e :: buf) buffer

/-- Deduplicate by first occurrence, skipping stream ids already `seen`. -/
def dedupFirstAux (seen : List String) : List String → List String
  | [] => []
  | s :: rest =>
      if s ∈ seen then dedupFirstAux seen rest
      else s :: dedupFirstAux (s :: seen) rest

/-- The distinct stream ids of a snapshot, in order of first occurrence
(the iteration order of the per-stream partitioning). -/
def distinctFirst (l : List String) : List String := dedupFirstAux [] l

/-- Modelled from the spec: one flush pass over the stream partitions of a
snapshot. `deferred` tells which partitions fail with a retriable error
this round; those are pushed back to the front of the buffer, the others
are committed through `write_stream_events` (a partition rejected there is
dropped and surfaced, per §4.3 step 5). -/
def flush_partitions (deferred : String → Bool) (snapshot : List BaseEvent) :
    List String → List BaseEvent → StoreMap → List BaseEvent × StoreMap
  | [], buffer, store => (buffer, store)
  | s :: rest, buffer, store =>
      if deferred s then
        flush_partitions deferred snapshot rest
          (reinsert_front (streamEvents s snapshot) buffer) store
      else
        flush_partitions deferred snapshot rest buffer
          (write_stream_events store s (streamEvents s snapshot)).1

/-- Modelled from the spec: `_flush_buffer` — snapshot the buffer, clear
it, partition by stream preserving order, and flush every partition. -/
def flush_buffer (deferred : String → Bool) (buffer : List BaseEvent)
    (store : StoreMap) : List BaseEvent × StoreMap :=
  flush_partitions deferred buffer
    (distinctFirst (buffer.map BaseEvent.stream_id)) [] store

/-- A run of successive flush passes, one oracle of retriable failures per
pass. -/
def run_flushes : List (String → Bool) → List BaseEvent → StoreMap →
    List BaseEvent × StoreMap
  | [], buffer, store => (buffer, store)
  | d :: ds, buffer, store =>
      let r := flush_buffer d buffer store
      run_flushes ds r.1 r.2

/-! ## Advisory-lock key derivation (spec §4.4.3) -/

/-- UTF-8 encoding of one code point, by the standard bit layout. -/
def utf8EncodeChar (c : Nat) : List Nat :=
  if c < 0x80 then [c]
  else if c < 0x800 then [0xC0 + c / 0x40, 0x80 + c % 0x40]
  else if c < 0x10000 then
    [0xE0 + c / 0x1000, 0x80 + (c / 0x40) % 0x40, 0x80 + c % 0x40]
  else
    [0xF0 + c / 0x40000, 0x80 + (c / 0x1000) % 0x40,
     0x80 + (c / 0x40) % 0x40, 0x80 + c % 0x40]

/-- The UTF-8 bytes of a string. -/
def utf8Bytes (s : String) : List Nat :=
  s.data.flatMap (fun c => utf8EncodeChar c.toNat)

/-- Modelled from the spec: a stable 64-bit non-cryptographic hash over the
UTF-8 bytes (FNV-1a, no seeded randomness), as used by the missing
`generate_stream_lock_keys` in `actors/events/postgres_event_store.py`. -/
def fnv1a64 (bytes : List Nat) : Nat :=
  bytes.foldl (fun h b => ((h ^^^ b) * 1099511628211) % 2 ^ 64)
    (14695981039346656037 % 2 ^ 64)

/-- Reinterpret a 32-bit unsigned value as a signed 32-bit integer. -/
def sign_extend_32 (x : Nat) : Int :=
  if x < 2 ^ 31 then (x : Int) else (x : Int) - 2 ^ 32

/-- Modelled from the spec: `generate_stream_lock_keys` — split the 64-bit
hash into its high and low 32-bit halves, each sign-extended into the
signed range required by `pg_advisory_xact_lock(int, int)`. -/
def generate_stream_lock_keys (stream_id : String) : Int × Int :=
  let h := fnv1a64 (utf8Bytes stream_id)
  (sign_extend_32 (h / 2 ^ 32), sign_extend_32 (h % 2 ^ 32))

/-! ## Event immutability (spec §4.1)

Modelled from the spec: `BaseEvent` is a frozen model; attempted mutation
after construction fails with `ImmutableEventError`
(`final_check.check_pydantic_models` exercises this). -/

/-- The mutation error of the frozen event model. -/
inductive ImmutableEventError where
  | immutableEvent : ImmutableEventError
deriving DecidableEq

/-- A constructed event object: its attributes plus the frozen flag the
attribute-assignment path consults. -/
structure EventObject where
  attrs : BaseEvent
  frozen : Bool
deriving DecidableEq

/-- Modelled from the spec: the factory operation — it fills in the
identity and timestamp and returns a frozen object. -/
def BaseEvent.create (event_id stream_id event_type : String) (data : Json)
    (version : Nat) (timestamp : Nat) (correlation_id : Option String) :
    EventObject :=
  { attrs := ⟨event_id, stream_id, event_type, data, version, timestamp,
      correlation_id⟩,
    frozen := true }

/-- Modelled from the spec: attribute assignment on an event object. Any
attempted update of the attributes is rejected with `ImmutableEventError`
when the object is frozen, leaving the object unchanged. -/
def object_setattr (o : EventObject) (update : BaseEvent → BaseEvent) :
    EventObject × Option ImmutableEventError :=
  if o.frozen then (o, some .immutableEvent)
  else ({ o with attrs := update o.attrs }, none)

/-! ## Memory actor (`src/actors/memory_actor.py`)

The metrics mapping of `MemoryActor.__init__` is an association list with
unique keys; Python booleans are modelled as integers (`False` is `0`). -/

/-- The `_metrics` mapping type. -/
abbrev Metrics := List (String × Int)

/-- The initial `_metrics` dictionary of `MemoryActor.__init__`. -/
def initMetrics : Metrics :=
  [("initialized", 0), ("degraded_mode_entries", 0), ("store_memory_count", 0),
   ("get_context_count", 0), ("clear_memory_count", 0),
   ("unknown_message_count", 0), ("db_errors", 0)]

/-- Dictionary membership test (`metric_name in self._metrics`). -/
def containsMetric : Metrics → String → Bool
  | [], _ => false
  | (k, _) :: rest, name => k = name || containsMetric rest name

/-- Dictionary read (`self._metrics[name]`), `none` when the key is absent. -/
def lookupMetric : Metrics → String → Option Int
  | [], _ => none
  | (k, x) :: rest, name => if k = name then some x else lookupMetric rest name

/-- Dictionary accumulate (`self._metrics[name] += value`): the entry whose
key matches is increased, every other entry is kept as is. -/
def addToMetric : Metrics → String → Int → Metrics
  | [], _, _ => []
  | (k, x) :: rest, name, v =>
      if k = name then (k, x + v) :: rest
      else (k, x) :: addToMetric rest name v

/-- Dictionary write (`self._metrics[name] = value`) on an existing key. -/
def setMetric : Metrics → String → Int → Metrics
  | [], _, _ => []
  | (k, x) :: rest, name, v =>
      if k = name then (k, v) :: rest
      else (k, x) :: setMetric rest name v

/-- The mutable state of `MemoryActor` relevant to message handling. -/
structure MemoryActorState where
  degraded_mode : Bool
  metrics : Metrics
deriving DecidableEq

/-- The state right after `MemoryActor.__init__`. -/
def initialActorState : MemoryActorState :=
  { degraded_mode := false, metrics := initMetrics }

/-- `MemoryActor._increment_metric`: adds `value` to the metric when the
name is a key of the mapping, otherwise does nothing. -/
def increment_metric (st : MemoryActorState) (metric_name : String)
    (value : Int) : MemoryActorState :=
  if containsMetric st.metrics metric_name then
    { st with metrics := addToMetric st.metrics metric_name value }
  else st

/-- `MemoryActor.initialize`: `ok` abstracts whether the database
connection and schema verification succeed. On success the `initialized`
metric is set; on any exception the actor enters degraded mode,
`degraded_mode_entries` is bumped and `db_errors` is incremented through
`_increment_metric`. -/
def memory_actor_init (ok : Bool) (st : MemoryActorState) : MemoryActorState :=
  if ok then { st with metrics := setMetric st.metrics "initialized" 1 }
  else
    let st1 := { st with degraded_mode := true }
    let st2 := { st1 with
      metrics := addToMetric st1.metrics "degraded_mode_entries" 1 }
    increment_metric st2 "db_errors" 1

/-- Modelled from the spec: the `MESSAGE_TYPES` constants of the missing
`actors/messages.py`; only their pairwise distinctness is relied upon. -/
def MT_STORE_MEMORY : String := "store_memory"

/-- Modelled from the spec: the `GET_CONTEXT` message-type tag. -/
def MT_GET_CONTEXT : String := "get_context"

/-- Modelled from the spec: the `CLEAR_USER_MEMORY` message-type tag. -/
def MT_CLEAR_USER_MEMORY : String := "clear_user_memory"

/-- Modelled from the spec: the `CONTEXT_RESPONSE` message-type tag. -/
def MT_CONTEXT_RESPONSE : String := "context_response"

/-- The payload fields used by the memory actor's handlers. -/
structure Payload where
  user_id : Option String := none
  context : Option (List Json) := none
  degraded_mode : Option Bool := none
  stub : Option Bool := none
deriving DecidableEq

/-- An actor message (`ActorMessage.create`). -/
structure ActorMessage where
  sender_id : String
  message_type : String
  payload : Payload
deriving DecidableEq

/-- `MemoryActor._handle_store_memory` (stage 3.2.1): in degraded mode it
returns immediately; the normal path is a stub. No response either way. -/
def handle_store_memory (st : MemoryActorState) (_msg : ActorMessage) :
    Option ActorMessage :=
  if st.degraded_mode then none else none

/-- `MemoryActor._handle_get_context` (stage 3.2.1): in degraded mode the
reply carries an empty context and the degraded flag; otherwise the stub
reply also carries an empty context. -/
def handle_get_context (st : MemoryActorState) (actor_id : String)
    (msg : ActorMessage) : ActorMessage :=
  if st.degraded_mode then
    { sender_id := actor_id, message_type := MT_CONTEXT_RESPONSE,
      payload := { user_id := msg.payload.user_id, context := some [],
                   degraded_mode := some true } }
  else
    { sender_id := actor_id, message_type := MT_CONTEXT_RESPONSE,
      payload := { user_id := msg.payload.user_id, context := some [],
                   stub := some true } }

/-- `MemoryActor._handle_clear_memory` (stage 3.2.1): no response. -/
def handle_clear_memory (st : MemoryActorState) (_msg : ActorMessage) :
    Option ActorMessage :=
  if st.degraded_mode then none else none

/-- `MemoryActor.handle_message`: dispatch on the message type, bump the
matching counter, and return a response only on the `GET_CONTEXT` path. -/
def handle_message (st : MemoryActorState) (actor_id : String)
    (msg : ActorMessage) : MemoryActorState × Option ActorMessage :=
  if msg.message_type = MT_STORE_MEMORY then
    let st' := { st with
      metrics := addToMetric st.metrics "store_memory_count" 1 }
    let _ := handle_store_memory st' msg
    (st', none)
  else if msg.message_type = MT_GET_CONTEXT then
    let st' := { st with
      metrics := addToMetric st.metrics "get_context_count" 1 }
    (st', some (handle_get_context st' actor_id msg))
  else if msg.message_type = MT_CLEAR_USER_MEMORY then
    let st' := { st with
      metrics := addToMetric st.metrics "clear_memory_count" 1 }
    let _ := handle_clear_memory st' msg
    (st', none)
  else
    ({ st with metrics := addToMetric st.metrics "unknown_message_count" 1 },
     none)

/-- The four per-type counters of `handle_message`. -/
def counterKeys : List String :=
  ["store_memory_count", "get_context_count", "clear_memory_count",
   "unknown_message_count"]

/-- `st'` agrees with `st` on every per-type counter except `key`, whose
value has been increased by one. -/
def bumpedOnly (st st' : MemoryActorState) (key : String) : Prop :=
  lookupMetric st'.metrics key = (lookupMetric st.metrics key).map (· + 1) ∧
  ∀ k ∈ counterKeys, k ≠ key →
    lookupMetric st'.metrics k = lookupMetric st.metrics k

/-! ## Serialization (spec §4.1)

Modelled from the spec: serialization of an event to and from a
self-describing textual (JSON) form, a bijection on all attributes
including the nested structured `data`. -/

/-- The opening brace of a JSON object. -/
def braceL : Char := Char.ofNat 123

/-- The closing brace of a JSON object. -/
def braceR : Char := Char.ofNat 125

/-- The decimal digit character for `d`. -/
def digitChar (d : Nat) : Char := Char.ofNat (48 + d)

/-- Escape one character of a JSON string body. -/
def escapeChar (c : Char) : List Char :=
  if c = '\"' ∨ c = '\\' then ['\\', c] else [c]

/-- Escape a whole string body. -/
def escapeChars : List Char → List Char
  | [] => []
  | c :: cs => escapeChar c ++ escapeChars cs

/-- Render a JSON string literal with its quotes. -/
def renderString (s : String) : List Char :=
  '\"' :: (escapeChars s.data ++ ['\"'])

/-- Big-endian decimal digits of `n`, accumulator style; `fuel` bounds the
number of divisions. -/
def toDigitsAcc : Nat → Nat → List Char → List Char
  | 0, _, acc => acc
  | fuel + 1, n, acc =>
      if n = 0 then acc
      else toDigitsAcc fuel (n / 10) (digitChar (n % 10) :: acc)

/-- Render a natural number in decimal. -/
def renderNat (n : Nat) : List Char :=
  if n = 0 then [digitChar 0] else toDigitsAcc (n + 1) n []

/-- Render an integer in decimal with an optional leading minus. -/
def renderInt (n : Int) : List Char :=
  if n < 0 then '-' :: renderNat n.natAbs else renderNat n.toNat

/-- The keyword text of the JSON null literal. -/
def nullChars : List Char := ['n', 'u', 'l', 'l']

/-- The keyword text of the JSON true literal. -/
def trueChars : List Char := ['t', 'r', 'u', 'e']

/-- The keyword text of the JSON false literal. -/
def falseChars : List Char := ['f', 'a', 'l', 's', 'e']

mutual
/-- Render a JSON value to its textual form. -/
def renderJson : Json → List Char
  | .num n => renderInt n
  | .str s => renderString s
  | .arr .nil => ['[', ']']
  | .arr (.cons x t) => '[' :: (renderJson x ++ renderElemsRest t ++ [']'])
  | .obj .nil => [braceL, braceR]
  | .obj (.cons k v t) =>
      braceL :: (renderString k ++ ':' :: renderJson v ++
        renderMembersRest t ++ [braceR])
  | .null => nullChars
  | .bool true => trueChars
  | .bool false => falseChars

/-- Render the remaining array elements, each with its separating comma. -/
def renderElemsRest : JsonList → List Char
  | .nil => []
  | .cons x t => ',' :: (renderJson x ++ renderElemsRest t)

/-- Render the remaining object members, each with its separating comma. -/
def renderMembersRest : JsonFields → List Char
  | .nil => []
  | .cons k v t =>
      ',' :: (renderString k ++ ':' :: renderJson v ++ renderMembersRest t)
end

/-- Parse the body of a JSON string literal up to its closing quote,
undoing the escapes. -/
def parseStringBody : List Char → Option (List Char × List Char)
  | [] => none
  | c :: cs =>
      if c = '\\' then
        match cs with
        | [] => none
        | d :: ds => (parseStringBody ds).map (fun p => (d :: p.1, p.2))
      else if c = '\"' then some ([], cs)
      else (parseStringBody cs).map (fun p => (c :: p.1, p.2))

/-- Consume a run of decimal digits, folding them onto `acc`. -/
def parseDigits : Nat → List Char → Nat × List Char
  | acc, [] => (acc, [])
  | acc, c :: cs =>
      if c.isDigit then parseDigits (10 * acc + (c.toNat - 48)) cs
      else (acc, c :: cs)

/-- Parse a nonempty run of decimal digits. -/
def parseNatNum : List Char → Option (Nat × List Char)
  | [] => none
  | c :: cs =>
      if c.isDigit then some (parseDigits (c.toNat - 48) cs) else none

/-- Match an expected literal character sequence. -/
def expectChars : List Char → List Char → Option (List Char)
  | [], cs => some cs
  | _ :: _, [] => none
  | p :: ps, c :: cs => if c = p then expectChars ps cs else none

/-- Whether the input starts with a decimal digit (the only token boundary
the number parser is sensitive to). -/
def headIsDigit : List Char → Bool
  | [] => false
  | c :: _ => c.isDigit

mutual
/-- Recursive-descent parse of one JSON value; `fuel` bounds the nesting
work and only ever needs to reach the value's size. -/
def parseVal : Nat → List Char → Option (Json × List Char)
  | 0, _ => none
  | _ + 1, [] => none
  | f + 1, c :: cs =>
      if c = 'n' then
        (expectChars ['u', 'l', 'l'] cs).map (fun r => (.null, r))
      else if c = 't' then
        (expectChars ['r', 'u', 'e'] cs).map (fun r => (.bool true, r))
      else if c = 'f' then
        (expectChars ['a', 'l', 's', 'e'] cs).map (fun r => (.bool false, r))
      else if c = '\"' then
        (parseStringBody cs).map (fun p => (.str (String.mk p.1), p.2))
      else if c = '-' then
        (parseNatNum cs).map (fun p => (.num (-(p.1 : Int)), p.2))
      else if c = '[' then
        match cs with
        | [] => none
        | d :: ds =>
            if d = ']' then some (.arr .nil, ds)
            else (parseElems f (d :: ds)).map (fun p => (.arr p.1, p.2))
      else if c = braceL then
        match cs with
        | [] => none
        | d :: ds =>
            if d = braceR then some (.obj .nil, ds)
            else (parseMembers f (d :: ds)).map (fun p => (.obj p.1, p.2))
      else if c.isDigit then
        let p := parseDigits (c.toNat - 48) cs
        some (.num (p.1 : Int), p.2)
      else none

/-- Parse a nonempty comma-separated element list up to and including the
closing bracket. -/
def parseElems : Nat → List Char → Option (JsonList × List Char)
  | 0, _ => none
  | f + 1, cs =>
      match parseVal f cs with
      | none => none
      | some (v, r) =>
          match r with
          | ',' :: r2 => (parseElems f r2).map (fun p => (.cons v p.1, p.2))
          | ']' :: r2 => some (.cons v .nil, r2)
          | _ => none

/-- Parse a nonempty comma-separated member list up to and including the
closing brace. -/
def parseMembers : Nat → List Char → Option (JsonFields × List Char)
  | 0, _ => none
  | f + 1, cs =>
      match cs with
      | '\"' :: cs2 =>
          match parseStringBody cs2 with
          | none => none
          | some (k, r) =>
              match r with
              | ':' :: r2 =>
                  match parseVal f r2 with
                  | none => none
                  | some (v, r3) =>
                      match r3 with
                      | [] => none
                      | c4 :: r4 =>
                          if c4 = ',' then
                            (parseMembers f r4).map
                              (fun p => (.cons (String.mk k) v p.1, p.2))
                          else if c4 = braceR then
                            some (.cons (String.mk k) v .nil, r4)
                          else none
              | _ => none
      | _ => none
end

mutual
/-- Fuel bound of one JSON value for the parser. -/
def sizeJ : Json → Nat
  | .arr xs => 1 + sizeL xs
  | .obj fs => 1 + sizeF fs
  | .null => 1
  | .bool _ => 1
  | .num _ => 1
  | .str _ => 1

/-- Fuel bound of an element list. -/
def sizeL : JsonList → Nat
  | .nil => 0
  | .cons x t => 1 + sizeJ x + sizeL t

/-- Fuel bound of a member list. -/
def sizeF : JsonFields → Nat
  | .nil => 0
  | .cons _ v t => 1 + sizeJ v + sizeF t
end

/-- The JSON form of an event: the self-describing object written to the
`data`-bearing storage row. -/
def eventToJson (e : BaseEvent) : Json :=
  .obj (.cons "event_id" (.str e.event_id)
    (.cons "stream_id" (.str e.stream_id)
      (.cons "event_type" (.str e.event_type)
        (.cons "data" e.data
          (.cons "version" (.num e.version)
            (.cons "timestamp" (.num e.timestamp)
              (.cons "correlation_id"
                (match e.correlation_id with
                 | none => Json.null
                 | some c => Json.str c) .nil)))))))

/-- Recover an event from its JSON object form. -/
def jsonToEvent : Json → Option BaseEvent
  | .obj (.cons k1 (.str eid) (.cons k2 (.str sid) (.cons k3 (.str et)
      (.cons k4 d (.cons k5 (.num v) (.cons k6 (.num ts)
        (.cons k7 c .nil))))))) =>
      if k1 = "event_id" ∧ k2 = "stream_id" ∧ k3 = "event_type" ∧
          k4 = "data" ∧ k5 = "version" ∧ k6 = "timestamp" ∧
          k7 = "correlation_id" ∧ 0 ≤ v ∧ 0 ≤ ts then
        match c with
        | .null => some ⟨eid, sid, et, d, v.toNat, ts.toNat, none⟩
        | .str cid => some ⟨eid, sid, et, d, v.toNat, ts.toNat, some cid⟩
        | _ => none
      else none
  | _ => none

/-- Modelled from the spec: serialize an event to its textual form. -/
def serialize (e : BaseEvent) : String :=
  String.mk (renderJson (eventToJson e))

/-- Modelled from the spec: deserialize the textual form back into an
event, requiring the whole input to be consumed. -/
def deserialize (s : String) : Option BaseEvent :=
  match parseVal (s.data.length + 1) s.data with
  | some (j, []) => jsonToEvent j
  | _ => none

/-! ## Metric dictionary lemmas -/

theorem lookupMetric_addToMetric (m : Metrics) (name k : String) (v : Int) :
    lookupMetric (addToMetric m name v) k =
      if k = name then (lookupMetric m k).map (· + v) else lookupMetric m k := by
  induction m with
  | nil => simp [addToMetric, lookupMetric]
  | cons p rest ih =>
      obtain ⟨k0, x⟩ := p
      by_cases h0 : k0 = name
      · subst h0
        by_cases hk : k0 = k
        · subst hk
          simp [addToMetric, lookupMetric]
        · have hk' : ¬k = k0 := fun h => hk h.symm
          simp [addToMetric, lookupMetric, hk, hk']
      · by_cases hk : k0 = k
        · subst hk
          simp [addToMetric, lookupMetric, h0]
        · simp [addToMetric, lookupMetric, h0, hk, ih]

theorem lookupMetric_eq_none_of_not_contains (m : Metrics) (name : String)
    (h : containsMetric m name = false) : lookupMetric m name = none := by
  induction m with
  | nil => rfl
  | cons p rest ih =>
      obtain ⟨k0, x⟩ := p
      simp only [containsMetric, Bool.or_eq_false_iff, decide_eq_false_iff_not]
        at h
      simp [lookupMetric, h.1, ih h.2]

theorem increment_metric_degraded (st : MemoryActorState) (name : String)
    (v : Int) :
    (increment_metric st name v).degraded_mode = st.degraded_mode := by
  unfold increment_metric
  split <;> rfl

theorem bumpedOnly_addToMetric (st : MemoryActorState) (key : String) :
    bumpedOnly st { st with metrics := addToMetric st.metrics key 1 } key := by
  constructor
  · rw [lookupMetric_addToMetric]
    simp
  · intro k _ hk
    rw [lookupMetric_addToMetric]
    simp [hk]

/-! ## Claims about the memory actor -/

/-- C10: `MemoryActor._increment_metric` adds `value` only to the entry of
the metrics mapping whose key equals `metric_name`, leaves every other
entry unchanged, and when `metric_name` is not a key the entire mapping is
unchanged (the operation is total, so no error is raised). -/
theorem increment_metric_frame (st : MemoryActorState) (metric_name : String)
    (value : Int) :
    (lookupMetric (increment_metric st metric_name value).metrics metric_name =
      (lookupMetric st.metrics metric_name).map (· + value)) ∧
    (∀ other, other ≠ metric_name →
      lookupMetric (increment_metric st metric_name value).metrics other =
        lookupMetric st.metrics other) ∧
    (containsMetric st.metrics metric_name = false →
      increment_metric st metric_name value = st) := by
  unfold increment_metric
  by_cases h : containsMetric st.metrics metric_name
  · refine ⟨?_, ?_, ?_⟩
    · simp only [h, if_true]
      rw [lookupMetric_addToMetric]
      simp
    · intro other hother
      simp only [h, if_true]
      rw [lookupMetric_addToMetric]
      simp [hother]
    · intro hfalse
      simp [h] at hfalse
  · have hnone := lookupMetric_eq_none_of_not_contains st.metrics metric_name
      (by simpa using h)
    simp [h, hnone]

/-- Witness for C10 at the initial actor state: incrementing `db_errors`
leaves the `store_memory_count` entry unchanged. -/
theorem increment_metric_frame_witness :
    lookupMetric (increment_metric initialActorState "db_errors" 2).metrics
        "store_memory_count" =
      lookupMetric initialActorState.metrics "store_memory_count" :=
  (increment_metric_frame initialActorState "db_errors" 2).2.1
    "store_memory_count" (by decide)

/-- C9: `handle_message` returns a response message only for the
`GET_CONTEXT` type; `STORE_MEMORY`, `CLEAR_USER_MEMORY` and unknown types
return `none`, and each handled message increments exactly the matching
per-type counter. -/
theorem handle_message_dispatch (st : MemoryActorState) (actor_id : String)
    (msg : ActorMessage) :
    ((handle_message st actor_id msg).2.isSome = true ↔
      msg.message_type = MT_GET_CONTEXT) ∧
    (msg.message_type = MT_STORE_MEMORY →
      bumpedOnly st (handle_message st actor_id msg).1 "store_memory_count") ∧
    (msg.message_type = MT_GET_CONTEXT →
      bumpedOnly st (handle_message st actor_id msg).1 "get_context_count") ∧
    (msg.message_type = MT_CLEAR_USER_MEMORY →
      bumpedOnly st (handle_message st actor_id msg).1 "clear_memory_count") ∧
    (msg.message_type ≠ MT_STORE_MEMORY →
      msg.message_type ≠ MT_GET_CONTEXT →
      msg.message_type ≠ MT_CLEAR_USER_MEMORY →
      bumpedOnly st (handle_message st actor_id msg).1
        "unknown_message_count") := by
  by_cases h1 : msg.message_type = MT_STORE_MEMORY
  · refine ⟨?_, ?_, ?_, ?_, ?_⟩ <;>
      simp [handle_message, h1, MT_STORE_MEMORY, MT_GET_CONTEXT,
        MT_CLEAR_USER_MEMORY, bumpedOnly_addToMetric]
  · by_cases h2 : msg.message_type = MT_GET_CONTEXT
    · refine ⟨?_, ?_, ?_, ?_, ?_⟩ <;>
        simp [handle_message, h1, h2, MT_STORE_MEMORY, MT_GET_CONTEXT,
          MT_CLEAR_USER_MEMORY, bumpedOnly_addToMetric]
    · by_cases h3 : msg.message_type = MT_CLEAR_USER_MEMORY
      · refine ⟨?_, ?_, ?_, ?_, ?_⟩ <;>
          simp [handle_message, h1, h2, h3, MT_STORE_MEMORY, MT_GET_CONTEXT,
            MT_CLEAR_USER_MEMORY, bumpedOnly_addToMetric]
      · refine ⟨?_, ?_, ?_, ?_, ?_⟩ <;>
          simp [handle_message, h1, h2, h3, bumpedOnly_addToMetric]

/-- Witness for C9: a concrete `GET_CONTEXT` message bumps exactly the
`get_context_count` counter. -/
theorem handle_message_dispatch_witness :
    bumpedOnly initialActorState
      (handle_message initialActorState "memory"
        ⟨"tester", MT_GET_CONTEXT, {}⟩).1 "get_context_count" :=
  (handle_message_dispatch initialActorState "memory"
    ⟨"tester", MT_GET_CONTEXT, {}⟩).2.2.1 rfl

/-- C8: when initialization fails fatally, the actor enters degraded mode,
in which the store-memory handler silently no-ops and the degraded
get-context reply carries an empty context. -/
theorem degraded_mode_fallback (st : MemoryActorState) (actor_id : String)
    (msg : ActorMessage) :
    (memory_actor_init false st).degraded_mode = true ∧
    handle_store_memory (memory_actor_init false st) msg = none ∧
    (handle_get_context (memory_actor_init false st) actor_id msg).payload.context
      = some [] ∧
    (handle_get_context (memory_actor_init false st) actor_id
      msg).payload.degraded_mode = some true := by
  have hdeg : (memory_actor_init false st).degraded_mode = true := by
    unfold memory_actor_init
    rw [if_neg (by simp)]
    rw [increment_metric_degraded]
  refine ⟨hdeg, ?_, ?_, ?_⟩
  · simp [handle_store_memory]
  · simp [handle_get_context, hdeg]
  · simp [handle_get_context, hdeg]

/-- C6: any attempted mutation of any attribute of a constructed event
fails with `ImmutableEventError` and leaves the attributes unchanged. -/
theorem event_immutable (event_id stream_id event_type : String) (data : Json)
    (version : Nat) (timestamp : Nat) (correlation_id : Option String)
    (update : BaseEvent → BaseEvent) :
    object_setattr
        (BaseEvent.create event_id stream_id event_type data version
          timestamp correlation_id) update =
      (BaseEvent.create event_id stream_id event_type data version timestamp
        correlation_id, some .immutableEvent) := rfl

/-! ## Advisory-lock key lemmas -/

theorem fnv_foldl_lt (bs : List Nat) (acc : Nat) (h : acc < 2 ^ 64) :
    bs.foldl (fun h b => ((h ^^^ b) * 1099511628211) % 2 ^ 64) acc < 2 ^ 64 := by
  induction bs generalizing acc with
  | nil => simpa using h
  | cons b rest ih =>
      simp only [List.foldl_cons]
      exact ih _ (Nat.mod_lt _ (by positivity))

theorem fnv1a64_lt (bs : List Nat) : fnv1a64 bs < 2 ^ 64 :=
  fnv_foldl_lt bs _ (by norm_num)

theorem sign_extend_32_range (x : Nat) (hx : x < 2 ^ 32) :
    -(2 ^ 31 : Int) ≤ sign_extend_32 x ∧ sign_extend_32 x < 2 ^ 31 := by
  unfold sign_extend_32
  have h32 : (2 : Nat) ^ 32 = 4294967296 := by norm_num
  have h31 : (2 : Nat) ^ 31 = 2147483648 := by norm_num
  rw [h32] at hx
  rw [h31]
  split <;> constructor <;> omega

/-- C5: `generate_stream_lock_keys` is a pure deterministic function of the
UTF-8 bytes of the stream id, and both returned keys lie in the signed
32-bit range. -/
theorem lock_keys_range_deterministic (stream_id : String) :
    (-(2 ^ 31 : Int) ≤ (generate_stream_lock_keys stream_id).1 ∧
      (generate_stream_lock_keys stream_id).1 < 2 ^ 31) ∧
    (-(2 ^ 31 : Int) ≤ (generate_stream_lock_keys stream_id).2 ∧
      (generate_stream_lock_keys stream_id).2 < 2 ^ 31) ∧
    (∀ t, utf8Bytes stream_id = utf8Bytes t →
      generate_stream_lock_keys stream_id = generate_stream_lock_keys t) := by
  have hlt := fnv1a64_lt (utf8Bytes stream_id)
  have hhi : fnv1a64 (utf8Bytes stream_id) / 2 ^ 32 < 2 ^ 32 := by
    apply Nat.div_lt_of_lt_mul
    calc fnv1a64 (utf8Bytes stream_id) < 2 ^ 64 := hlt
    _ = 2 ^ 32 * 2 ^ 32 := by norm_num
  have hlo : fnv1a64 (utf8Bytes stream_id) % 2 ^ 32 < 2 ^ 32 :=
    Nat.mod_lt _ (by positivity)
  refine ⟨?_, ?_, ?_⟩
  · exact sign_extend_32_range _ hhi
  · exact sign_extend_32_range _ hlo
  · intro t ht
    unfold generate_stream_lock_keys
    rw [ht]

/-- Witness for C5 at a concrete stream id from the manual test. -/
theorem lock_keys_range_deterministic_witness :
    generate_stream_lock_keys "user_123" =
      generate_stream_lock_keys "user_123" ∧
    -(2 ^ 31 : Int) ≤ (generate_stream_lock_keys "user_123").1 :=
  ⟨(lock_keys_range_deterministic "user_123").2.2 "user_123" rfl,
   (lock_keys_range_deterministic "user_123").1.1⟩

/-! ## Unfolding lemmas for the append path -/

theorem write_stream_events_nil (store : StoreMap) (s : String) :
    write_stream_events store s [] = (store, none) := rfl

theorem write_stream_events_cons_pos (store : StoreMap) (s : String)
    (e : BaseEvent) (t : List BaseEvent)
    (hv : e.version = (store s).length) :
    write_stream_events store s (e :: t) =
      ((fun x => if x = s then store x ++ (e :: t) else store x), none) := by
  simp only [write_stream_events, if_pos hv]

theorem write_stream_events_cons_neg (store : StoreMap) (s : String)
    (e : BaseEvent) (t : List BaseEvent)
    (hv : ¬e.version = (store s).length) :
    write_stream_events store s (e :: t) =
      (store, some .concurrencyConflict) := by
  simp only [write_stream_events, if_neg hv]

/-! ## Version contiguity (C2) -/

theorem run_appends_contiguous (es : List BaseEvent) (store : StoreMap)
    (hstore : ∀ s, (store s).map BaseEvent.version =
      List.range (store s).length) :
    ∀ s, (run_appends store es s).map BaseEvent.version =
      List.range (run_appends store es s).length := by
  induction es generalizing store with
  | nil => simpa [run_appends] using hstore
  | cons e rest ih =>
      have hstep : ∀ s,
          ((append_event store e).1 s).map BaseEvent.version =
            List.range ((append_event store e).1 s).length := by
        intro s
        unfold append_event
        by_cases hv : e.version = (store e.stream_id).length
        · rw [write_stream_events_cons_pos store e.stream_id e [] hv]
          by_cases hs : s = e.stream_id
          · subst hs
            simp only [eq_self_iff_true, if_true, List.map_append,
              List.length_append, hstore e.stream_id, List.map_cons,
              List.map_nil, List.length_cons, List.length_nil, hv,
              Nat.zero_add, Nat.add_zero]
            rw [List.range_succ]
          · simp only [if_neg hs]
            exact hstore s
        · rw [write_stream_events_cons_neg store e.stream_id e [] hv]
          exact hstore s
      have := ih (append_event store e).1 hstep
      simpa [run_appends] using this

/-- C2: after any sequence of appends to the store, keeping the successful
ones, the versions returned by `get_stream` form the contiguous sequence
`0,1,…,n−1` with no gaps and no duplicates. -/
theorem version_contiguity (es : List BaseEvent) (s : String) :
    (get_stream (run_appends emptyStore es) s).map BaseEvent.version =
      List.range (get_stream (run_appends emptyStore es) s).length :=
  run_appends_contiguous es emptyStore (fun _ => by simp [emptyStore]) s

/-! ## Concurrency conflicts (C3) and atomic batches (C4) -/

/-- C3: with two appends declaring the same (currently next) version for a
stream, the one serialized first succeeds and the other fails with
`ConcurrencyConflict`, committing nothing; more generally a batch whose
first version is not the stream's next version aborts with
`ConcurrencyConflict` and leaves the store unchanged. -/
theorem concurrent_appends_conflict (store : StoreMap) (s : String)
    (b1 b2 : List BaseEvent) (e1 e2 : BaseEvent)
    (h1 : b1.head? = some e1) (h2 : b2.head? = some e2)
    (hv1 : e1.version = (get_stream store s).length)
    (hv2 : e2.version = (get_stream store s).length) :
    (write_stream_events store s b1).2 = none ∧
    (write_stream_events (write_stream_events store s b1).1 s b2).2 =
      some .concurrencyConflict ∧
    (write_stream_events (write_stream_events store s b1).1 s b2).1 =
      (write_stream_events store s b1).1 ∧
    (∀ (st : StoreMap) (b : List BaseEvent) (e : BaseEvent),
      b.head? = some e → e.version ≠ (get_stream st s).length →
      (write_stream_events st s b).2 = some .concurrencyConflict ∧
      (write_stream_events st s b).1 = st) := by
  obtain ⟨t1, rfl⟩ : ∃ t1, b1 = e1 :: t1 := by
    cases b1 with
    | nil => simp at h1
    | cons a t =>
        simp only [List.head?_cons, Option.some.injEq] at h1
        exact ⟨t, by rw [h1]⟩
  obtain ⟨t2, rfl⟩ : ∃ t2, b2 = e2 :: t2 := by
    cases b2 with
    | nil => simp at h2
    | cons a t =>
        simp only [List.head?_cons, Option.some.injEq] at h2
        exact ⟨t, by rw [h2]⟩
  have hv1' : e1.version = (store s).length := hv1
  rw [write_stream_events_cons_pos store s e1 t1 hv1']
  have hgrow : (fun x => if x = s then store x ++ (e1 :: t1) else store x) s =
      store s ++ (e1 :: t1) := by simp
  have hv2' : ¬e2.version =
      ((fun x => if x = s then store x ++ (e1 :: t1) else store x) s).length := by
    rw [hgrow]
    simp only [List.length_append, List.length_cons]
    have : e2.version = (store s).length := hv2
    omega
  rw [write_stream_events_cons_neg _ s e2 t2 hv2']
  refine ⟨rfl, rfl, rfl, ?_⟩
  intro st b e hb hv
  obtain ⟨t, rfl⟩ : ∃ t, b = e :: t := by
    cases b with
    | nil => simp at hb
    | cons a t =>
        simp only [List.head?_cons, Option.some.injEq] at hb
        exact ⟨t, by rw [hb]⟩
  rw [write_stream_events_cons_neg st s e t hv]
  exact ⟨rfl, rfl⟩

/-- Witness for C3: two batches both declaring version `0` on the empty
stream `t`; the first commits and the second conflicts. -/
theorem concurrent_appends_conflict_witness :
    (write_stream_events
        (write_stream_events emptyStore "t"
          [⟨"idA", "t", "T", Json.null, 0, 0, none⟩]).1 "t"
        [⟨"idB", "t", "T", Json.null, 0, 1, none⟩]).2 =
      some .concurrencyConflict :=
  (concurrent_appends_conflict emptyStore "t"
      [⟨"idA", "t", "T", Json.null, 0, 0, none⟩]
      [⟨"idB", "t", "T", Json.null, 0, 1, none⟩]
      ⟨"idA", "t", "T", Json.null, 0, 0, none⟩
      ⟨"idB", "t", "T", Json.null, 0, 1, none⟩
      rfl rfl rfl rfl).2.1

/-- C4: a batch committed through `write_stream_events` is fully visible to
a subsequent `get_stream`, and on any error the destination stream's state
is unchanged. -/
theorem write_stream_events_atomic (store : StoreMap) (s : String)
    (batch : List BaseEvent) :
    (∀ st', write_stream_events store s batch = (st', none) →
      get_stream st' s = get_stream store s ++ batch) ∧
    (∀ st' err, write_stream_events store s batch = (st', some err) →
      st' = store ∧ get_stream st' s = get_stream store s) := by
  cases batch with
  | nil =>
      constructor
      · intro st' h
        rw [write_stream_events_nil] at h
        obtain ⟨rfl, -⟩ := Prod.mk.injEq store none st' none ▸ h
        simp [get_stream]
      · intro st' err h
        rw [write_stream_events_nil] at h
        exact absurd (congrArg Prod.snd h) (by simp)
  | cons e t =>
      by_cases hv : e.version = (store s).length
      · constructor
        · intro st' h
          rw [write_stream_events_cons_pos store s e t hv] at h
          have hst : st' = fun x => if x = s then store x ++ (e :: t)
              else store x := (congrArg Prod.fst h).symm
          subst hst
          simp [get_stream]
        · intro st' err h
          rw [write_stream_events_cons_pos store s e t hv] at h
          exact absurd (congrArg Prod.snd h) (by simp)
      · constructor
        · intro st' h
          rw [write_stream_events_cons_neg store s e t hv] at h
          exact absurd (congrArg Prod.snd h) (by simp)
        · intro st' err h
          rw [write_stream_events_cons_neg store s e t hv] at h
          have hst : st' = store := (congrArg Prod.fst h).symm
          subst hst
          exact ⟨rfl, rfl⟩

/-- Witness for C4: a concrete single-event batch on the empty store is
fully visible after its commit. -/
theorem write_stream_events_atomic_witness :
    get_stream
        (write_stream_events emptyStore "s"
          [⟨"id0", "s", "T", Json.null, 0, 0, none⟩]).1 "s" =
      get_stream emptyStore "s" ++ [⟨"id0", "s", "T", Json.null, 0, 0, none⟩] :=
  (write_stream_events_atomic emptyStore "s"
      [⟨"id0", "s", "T", Json.null, 0, 0, none⟩]).1 _ rfl

/-! ## Buffer and flush lemmas (C1) -/

theorem foldl_cons_rev (l acc : List BaseEvent) :
    l.foldl (fun buf e => e :: buf) acc = l.reverse ++ acc := by
  induction l generalizing acc with
  | nil => simp
  | cons e t ih =>
      simp only [List.foldl_cons, ih, List.reverse_cons, List.append_assoc,
        List.singleton_append]

theorem reinsert_front_eq (partition buffer : List BaseEvent) :
    reinsert_front partition buffer = partition ++ buffer := by
  unfold reinsert_front
  rw [foldl_cons_rev, List.reverse_reverse]

theorem streamEvents_nil (s : String) : streamEvents s [] = [] := rfl

theorem streamEvents_append (s : String) (a b : List BaseEvent) :
    streamEvents s (a ++ b) = streamEvents s a ++ streamEvents s b := by
  simp [streamEvents, List.filter_append]

theorem streamEvents_idem (s : String) (l : List BaseEvent) :
    streamEvents s (streamEvents s l) = streamEvents s l := by
  unfold streamEvents
  apply List.filter_eq_self.mpr
  intro e he
  exact (List.mem_filter.mp he).2

theorem streamEvents_other (s t : String) (h : ¬s = t) (l : List BaseEvent) :
    streamEvents s (streamEvents t l) = [] := by
  unfold streamEvents
  apply List.filter_eq_nil_iff.mpr
  intro e he
  have := (List.mem_filter.mp he).2
  simp only [beq_iff_eq] at this ⊢
  rw [this]
  exact fun hts => h hts.symm

theorem streamEvents_nil_of_not_mem (s : String) (l : List BaseEvent)
    (h : s ∉ l.map BaseEvent.stream_id) : streamEvents s l = [] := by
  unfold streamEvents
  apply List.filter_eq_nil_iff.mpr
  intro e he
  simp only [beq_iff_eq]
  intro heq
  exact h (List.mem_map.mpr ⟨e, he, heq⟩)

theorem mem_dedupFirstAux (a : String) :
    ∀ (l : List String) (seen : List String),
      a ∈ dedupFirstAux seen l ↔ a ∈ l ∧ a ∉ seen := by
  intro l
  induction l with
  | nil => simp [dedupFirstAux]
  | cons s rest ih =>
      intro seen
      by_cases hs : s ∈ seen
      · rw [show dedupFirstAux seen (s :: rest) = dedupFirstAux seen rest
          from by simp [dedupFirstAux, hs]]
        rw [ih seen]
        constructor
        · exact fun ⟨h1, h2⟩ => ⟨List.mem_cons_of_mem s h1, h2⟩
        · rintro ⟨h1, h2⟩
          rcases List.mem_cons.mp h1 with rfl | h1
          · exact absurd hs h2
          · exact ⟨h1, h2⟩
      · rw [show dedupFirstAux seen (s :: rest) =
            s :: dedupFirstAux (s :: seen) rest
          from by simp [dedupFirstAux, hs]]
        rw [List.mem_cons, ih (s :: seen)]
        constructor
        · rintro (rfl | ⟨h1, h2⟩)
          · exact ⟨List.mem_cons_self a rest, hs⟩
          · exact ⟨List.mem_cons_of_mem s h1,
              fun hseen => h2 (List.mem_cons_of_mem s hseen)⟩
        · rintro ⟨h1, h2⟩
          rcases List.mem_cons.mp h1 with rfl | h1
          · exact Or.inl rfl
          · by_cases has : a = s
            · exact Or.inl has
            · exact Or.inr ⟨h1, by simp [List.mem_cons, has, h2]⟩

theorem dedupFirstAux_nodup :
    ∀ (l : List String) (seen : List String),
      (dedupFirstAux seen l).Nodup := by
  intro l
  induction l with
  | nil => intro seen; simp [dedupFirstAux]
  | cons s rest ih =>
      intro seen
      by_cases hs : s ∈ seen
      · rw [show dedupFirstAux seen (s :: rest) = dedupFirstAux seen rest
          from by simp [dedupFirstAux, hs]]
        exact ih seen
      · rw [show dedupFirstAux seen (s :: rest) =
            s :: dedupFirstAux (s :: seen) rest
          from by simp [dedupFirstAux, hs]]
        rw [List.nodup_cons]
        refine ⟨?_, ih (s :: seen)⟩
        intro hmem
        have := (mem_dedupFirstAux s rest (s :: seen)).mp hmem
        exact this.2 (List.mem_cons_self s seen)

theorem mem_distinctFirst (a : String) (l : List String) :
    a ∈ distinctFirst l ↔ a ∈ l := by
  unfold distinctFirst
  rw [mem_dedupFirstAux]
  simp

theorem distinctFirst_nodup (l : List String) : (distinctFirst l).Nodup :=
  dedupFirstAux_nodup l []

theorem get_stream_write_other (store : StoreMap) (t s : String)
    (evs : List BaseEvent) (h : ¬s = t) :
    (write_stream_events store t evs).1 s = store s := by
  cases evs with
  | nil => rfl
  | cons e tl =>
      by_cases hv : e.version = (store t).length
      · rw [write_stream_events_cons_pos store t e tl hv]
        simp [h]
      · rw [write_stream_events_cons_neg store t e tl hv]

theorem flush_partitions_focus (d : String → Bool)
    (snapshot : List BaseEvent) (s : String) :
    ∀ L : List String, L.Nodup →
    ∀ (buffer : List BaseEvent) (store : StoreMap),
    (s ∈ L → ∀ e, (streamEvents s snapshot).head? = some e →
      e.version = (store s).length) →
    (flush_partitions d snapshot L buffer store).2 s ++
      streamEvents s (flush_partitions d snapshot L buffer store).1 =
      store s ++ (if s ∈ L then streamEvents s snapshot else []) ++
        streamEvents s buffer := by
  intro L
  induction L with
  | nil =>
      intro _ buffer store _
      simp [flush_partitions]
  | cons t rest ih =>
      intro hnd buffer store hver
      have hndr : rest.Nodup := (List.nodup_cons.mp hnd).2
      have htr : t ∉ rest := (List.nodup_cons.mp hnd).1
      cases hd : d t with
      | true =>
          rw [show flush_partitions d snapshot (t :: rest) buffer store =
              flush_partitions d snapshot rest
                (reinsert_front (streamEvents t snapshot) buffer) store
            from by simp [flush_partitions, hd]]
          by_cases hst : s = t
          · subst hst
            rw [ih hndr _ store (fun hs => absurd hs htr)]
            rw [reinsert_front_eq, streamEvents_append, streamEvents_idem]
            simp [htr, List.append_assoc, List.mem_cons]
          · rw [ih hndr _ store (fun hs => hver (List.mem_cons_of_mem t hs))]
            rw [reinsert_front_eq, streamEvents_append,
              streamEvents_other s t hst]
            by_cases hsr : s ∈ rest <;>
              simp [hsr, hst, List.mem_cons, List.append_assoc]
      | false =>
          rw [show flush_partitions d snapshot (t :: rest) buffer store =
              flush_partitions d snapshot rest buffer
                (write_stream_events store t (streamEvents t snapshot)).1
            from by simp [flush_partitions, hd]]
          by_cases hst : s = t
          · subst hst
            rw [ih hndr buffer _ (fun hs => absurd hs htr)]
            have hwrite : (write_stream_events store s
                (streamEvents s snapshot)).1 s =
                store s ++ streamEvents s snapshot := by
              cases hpart : streamEvents s snapshot with
              | nil =>
                  rw [write_stream_events_nil]
                  simp
              | cons e tl =>
                  have hv : e.version = (store s).length :=
                    hver (List.mem_cons_self s rest) e (by rw [hpart]; rfl)
                  rw [write_stream_events_cons_pos store s e tl hv]
                  simp
            rw [hwrite]
            simp [htr, List.append_assoc, List.mem_cons]
          · have hstore : (write_stream_events store t
                (streamEvents t snapshot)).1 s = store s :=
              get_stream_write_other store t s _ hst
            rw [ih hndr buffer _ (fun hs e he => by
              rw [hstore]
              exact hver (List.mem_cons_of_mem t hs) e he)]
            rw [hstore]
            by_cases hsr : s ∈ rest <;>
              simp [hsr, hst, List.mem_cons, List.append_assoc]

theorem flush_buffer_focus (d : String → Bool) (buffer : List BaseEvent)
    (store : StoreMap) (s : String)
    (hver : ∀ e, (streamEvents s buffer).head? = some e →
      e.version = (store s).length) :
    (flush_buffer d buffer store).2 s ++
      streamEvents s (flush_buffer d buffer store).1 =
      store s ++ streamEvents s buffer := by
  unfold flush_buffer
  have h := flush_partitions_focus d buffer s
    (distinctFirst (buffer.map BaseEvent.stream_id))
    (distinctFirst_nodup _) [] store (fun _ => hver)
  by_cases hs : s ∈ distinctFirst (buffer.map BaseEvent.stream_id)
  · rw [h]
    simp [hs, streamEvents_nil]
  · have hnil : streamEvents s buffer = [] := by
      apply streamEvents_nil_of_not_mem
      intro hmem
      exact hs ((mem_distinctFirst s _).mpr hmem)
    rw [h]
    simp [hs, hnil, streamEvents_nil]

theorem head_version_of_range (a t : List BaseEvent) (e : BaseEvent)
    (hver : (a ++ e :: t).map BaseEvent.version =
      List.range (a ++ e :: t).length) :
    e.version = a.length := by
  have hlen : a.length < ((a ++ e :: t).map BaseEvent.version).length := by
    simp
  have hlen2 : a.length < (List.range (a ++ e :: t).length).length := by
    simp
  have h3 : ((a ++ e :: t).map BaseEvent.version)[a.length] =
      (List.range (a ++ e :: t).length)[a.length] :=
    List.getElem_of_eq hver hlen
  rw [List.getElem_map] at h3
  rw [List.getElem_append_right (Nat.le_refl a.length)] at h3
  rw [List.getElem_range] at h3
  simpa using h3

theorem run_flushes_focus (ds : List (String → Bool)) (s : String) :
    ∀ (buffer : List BaseEvent) (store : StoreMap),
    (store s ++ streamEvents s buffer).map BaseEvent.version =
      List.range (store s ++ streamEvents s buffer).length →
    (run_flushes ds buffer store).2 s ++
      streamEvents s (run_flushes ds buffer store).1 =
      store s ++ streamEvents s buffer := by
  induction ds with
  | nil =>
      intro buffer store _
      simp [run_flushes]
  | cons d rest ih =>
      intro buffer store hinv
      have hver : ∀ e, (streamEvents s buffer).head? = some e →
          e.version = (store s).length := by
        intro e he
        obtain ⟨tl, htl⟩ : ∃ tl, streamEvents s buffer = e :: tl := by
          cases hp : streamEvents s buffer with
          | nil => rw [hp] at he; simp at he
          | cons x xs =>
              rw [hp] at he
              simp only [List.head?_cons, Option.some.injEq] at he
              exact ⟨xs, by rw [he]⟩
        apply head_version_of_range (store s) tl e
        rw [← htl]
        exact hinv
      have hflush := flush_buffer_focus d buffer store s hver
      have hinv' : ((flush_buffer d buffer store).2 s ++
          streamEvents s (flush_buffer d buffer store).1).map
            BaseEvent.version =
          List.range ((flush_buffer d buffer store).2 s ++
            streamEvents s (flush_buffer d buffer store).1).length := by
        rw [hflush]
        exact hinv
      have := ih (flush_buffer d buffer store).1
        (flush_buffer d buffer store).2 hinv'
      simp only [run_flushes]
      rw [this, hflush]

/-- C1: if a flush partition fails with a retriable error, its events are
re-inserted by iterating the partition in reverse and pushing each event to
the front, which restores their original relative order; consequently,
after any number of retriable-failure rounds, once the buffer holds no more
events of stream `s`, `get_stream` returns the accepted events of `s` in
their exact original order. -/
theorem order_preservation_across_retry (fails : List (String → Bool))
    (buffer0 : List BaseEvent) (s : String)
    (hva : (streamEvents s buffer0).map BaseEvent.version =
      List.range (streamEvents s buffer0).length)
    (hconv : streamEvents s (run_flushes fails buffer0 emptyStore).1 = []) :
    (∀ partition buffer, reinsert_front partition buffer =
      partition ++ buffer) ∧
    get_stream (run_flushes fails buffer0 emptyStore).2 s =
      streamEvents s buffer0 := by
  refine ⟨reinsert_front_eq, ?_⟩
  have h := run_flushes_focus fails s buffer0 emptyStore
    (by simpa [emptyStore] using hva)
  rw [hconv] at h
  simpa [emptyStore, get_stream] using h

/-- Witness for C1: three buffered events for stream `u`; the first flush
round fails retriably for every partition, the second commits, and
`get_stream` returns the events in their original order. -/
theorem order_preservation_across_retry_witness :
    get_stream
        (run_flushes [fun _ => true, fun _ => false]
          [⟨"idA", "u", "T", Json.null, 0, 0, none⟩,
           ⟨"idB", "u", "T", Json.null, 1, 0, none⟩,
           ⟨"idC", "u", "T", Json.null, 2, 0, none⟩] emptyStore).2 "u" =
      streamEvents "u"
        [⟨"idA", "u", "T", Json.null, 0, 0, none⟩,
         ⟨"idB", "u", "T", Json.null, 1, 0, none⟩,
         ⟨"idC", "u", "T", Json.null, 2, 0, none⟩] :=
  (order_preservation_across_retry [fun _ => true, fun _ => false]
    [⟨"idA", "u", "T", Json.null, 0, 0, none⟩,
     ⟨"idB", "u", "T", Json.null, 1, 0, none⟩,
     ⟨"idC", "u", "T", Json.null, 2, 0, none⟩] "u"
    (by decide) (by decide)).2

/-! ## Serialization lemmas (C7) -/

theorem ne_of_isDigit {c c0 : Char} (h1 : c.isDigit = true)
    (h2 : c0.isDigit = false) : c ≠ c0 := by
  intro he
  rw [he, h2] at h1
  exact Bool.false_ne_true h1

theorem string_mk_data (s : String) : String.mk s.data = s := rfl

theorem parseStringBody_escape (l rest : List Char) :
    parseStringBody (escapeChars l ++ '\"' :: rest) = some (l, rest) := by
  induction l with
  | nil =>
      rw [show escapeChars [] ++ '\"' :: rest = '\"' :: rest from by
        simp [escapeChars]]
      rw [parseStringBody.eq_def]
      simp
  | cons c cs ih =>
      by_cases hc : c = '\"' ∨ c = '\\'
      · rw [show escapeChars (c :: cs) ++ '\"' :: rest =
            '\\' :: c :: (escapeChars cs ++ '\"' :: rest) from by
          simp [escapeChars, escapeChar, hc]]
        rw [show parseStringBody ('\\' :: c :: (escapeChars cs ++ '\"' :: rest))
            = (parseStringBody (escapeChars cs ++ '\"' :: rest)).map
                (fun p => (c :: p.1, p.2)) from by
          rw [parseStringBody.eq_def]
          simp]
        rw [ih]
        rfl
      · push_neg at hc
        rw [show escapeChars (c :: cs) ++ '\"' :: rest =
            c :: (escapeChars cs ++ '\"' :: rest) from by
          simp [escapeChars, escapeChar, hc.1, hc.2]]
        rw [show parseStringBody (c :: (escapeChars cs ++ '\"' :: rest)) =
            (parseStringBody (escapeChars cs ++ '\"' :: rest)).map
              (fun p => (c :: p.1, p.2)) from by
          rw [parseStringBody.eq_def]
          simp [hc.1, hc.2]]
        rw [ih]
        rfl

theorem isDigit_digitChar (d : Nat) (hd : d < 10) :
    (digitChar d).isDigit = true := by
  interval_cases d <;> decide

theorem toNat_digitChar (d : Nat) (hd : d < 10) :
    (digitChar d).toNat - 48 = d := by
  interval_cases d <;> decide

theorem parseDigits_run (ds : List Nat) :
    ∀ (acc : Nat) (rest : List Char), (∀ d ∈ ds, d < 10) →
      headIsDigit rest = false →
      parseDigits acc (ds.map digitChar ++ rest) =
        (ds.foldl (fun a d => 10 * a + d) acc, rest) := by
  induction ds with
  | nil =>
      intro acc rest _ hrest
      cases rest with
      | nil => simp [parseDigits]
      | cons c cs =>
          have hc : c.isDigit = false := by simpa [headIsDigit] using hrest
          simp [parseDigits, hc]
  | cons d ds' ih =>
      intro acc rest hds hrest
      have hd : d < 10 := hds d (List.mem_cons_self d ds')
      rw [show (d :: ds').map digitChar ++ rest =
          digitChar d :: (ds'.map digitChar ++ rest) from by simp]
      rw [show parseDigits acc (digitChar d :: (ds'.map digitChar ++ rest)) =
          parseDigits (10 * acc + ((digitChar d).toNat - 48))
            (ds'.map digitChar ++ rest) from by
        simp [parseDigits, isDigit_digitChar d hd]]
      rw [toNat_digitChar d hd]
      rw [ih (10 * acc + d) rest (fun x hx => hds x (List.mem_cons_of_mem d hx))
        hrest]
      simp

theorem foldl_digits_eq (n : Nat) :
    ((Nat.digits 10 n).reverse).foldl (fun a d => 10 * a + d) 0 = n := by
  rw [List.foldl_reverse]
  have hfold : ∀ ds : List Nat,
      ds.foldr (fun x y => 10 * y + x) 0 = Nat.ofDigits 10 ds := by
    intro ds
    induction ds with
    | nil => simp [Nat.ofDigits]
    | cons d t ih =>
        simp only [List.foldr_cons, ih, Nat.ofDigits]
        push_cast
        omega
  rw [hfold, Nat.ofDigits_digits]

theorem toDigitsAcc_eq (fuel : Nat) :
    ∀ (acc : List Char) (n : Nat), n ≤ fuel →
      toDigitsAcc fuel n acc =
        ((Nat.digits 10 n).reverse).map digitChar ++ acc := by
  induction fuel with
  | zero =>
      intro acc n hn
      have : n = 0 := by omega
      subst this
      simp [toDigitsAcc]
  | succ f ih =>
      intro acc n hn
      by_cases h0 : n = 0
      · subst h0
        simp [toDigitsAcc]
      · rw [show toDigitsAcc (f + 1) n acc =
            toDigitsAcc f (n / 10) (digitChar (n % 10) :: acc) from by
          simp [toDigitsAcc, h0]]
        have hdiv : n / 10 ≤ f := by
          have := Nat.div_lt_self (Nat.pos_of_ne_zero h0)
            (show 1 < 10 from by norm_num)
          omega
        rw [ih (digitChar (n % 10) :: acc) (n / 10) hdiv]
        rw [Nat.digits_def' (show 1 < 10 from by norm_num)
          (Nat.pos_of_ne_zero h0)]
        simp [List.reverse_cons, List.map_append]

theorem parseNatNum_renderNat (n : Nat) (rest : List Char)
    (hrest : headIsDigit rest = false) :
    parseNatNum (renderNat n ++ rest) = some (n, rest) := by
  by_cases h0 : n = 0
  · subst h0
    rw [show renderNat 0 ++ rest = digitChar 0 :: rest from by
      simp [renderNat]]
    rw [show parseNatNum (digitChar 0 :: rest) =
        some (parseDigits ((digitChar 0).toNat - 48) rest) from by
      simp [parseNatNum, isDigit_digitChar 0 (by norm_num)]]
    rw [toNat_digitChar 0 (by norm_num)]
    have := parseDigits_run [] 0 rest (by simp) hrest
    simpa using this
  · rw [renderNat, if_neg h0, toDigitsAcc_eq (n + 1) [] n (by omega)]
    cases hrds : (Nat.digits 10 n).reverse with
    | nil =>
        exfalso
        exact Nat.digits_ne_nil_iff_ne_zero.mpr h0
          (List.reverse_eq_nil_iff.mp hrds)
    | cons d0 ds =>
        have hall : ∀ d ∈ d0 :: ds, d < 10 := by
          intro d hd
          refine Nat.digits_lt_base (show (1 : Nat) < 10 from by norm_num)
            (show d ∈ Nat.digits 10 n from ?_)
          rw [← List.mem_reverse, hrds]
          exact hd
        have hd0 : d0 < 10 := hall d0 (List.mem_cons_self d0 ds)
        rw [show ((d0 :: ds).map digitChar ++ []) ++ rest =
            digitChar d0 :: (ds.map digitChar ++ rest) from by simp]
        rw [show parseNatNum (digitChar d0 :: (ds.map digitChar ++ rest)) =
            some (parseDigits ((digitChar d0).toNat - 48)
              (ds.map digitChar ++ rest)) from by
          simp [parseNatNum, isDigit_digitChar d0 hd0]]
        rw [toNat_digitChar d0 hd0]
        rw [parseDigits_run ds d0 rest
          (fun x hx => hall x (List.mem_cons_of_mem d0 hx)) hrest]
        have hfold : (d0 :: ds).foldl (fun a d => 10 * a + d) 0 = n := by
          rw [← hrds]
          exact foldl_digits_eq n
        simp only [List.foldl_cons] at hfold
        rw [show 10 * 0 + d0 = d0 from by omega] at hfold
        rw [hfold]

theorem renderNat_head (n : Nat) :
    ∃ c cs, renderNat n = c :: cs ∧ c.isDigit = true := by
  by_cases h0 : n = 0
  · subst h0
    exact ⟨digitChar 0, [], by simp [renderNat],
      isDigit_digitChar 0 (by norm_num)⟩
  · rw [renderNat, if_neg h0, toDigitsAcc_eq (n + 1) [] n (by omega)]
    cases hrds : (Nat.digits 10 n).reverse with
    | nil =>
        exfalso
        exact Nat.digits_ne_nil_iff_ne_zero.mpr h0
          (List.reverse_eq_nil_iff.mp hrds)
    | cons d0 ds =>
        have hd0 : d0 < 10 := by
          refine Nat.digits_lt_base (show (1 : Nat) < 10 from by norm_num)
            (show d0 ∈ Nat.digits 10 n from ?_)
          rw [← List.mem_reverse, hrds]
          exact List.mem_cons_self d0 ds
        exact ⟨digitChar d0, ds.map digitChar ++ [], by simp,
          isDigit_digitChar d0 hd0⟩

theorem parseVal_quote (f : Nat) (cs : List Char) :
    parseVal (f + 1) ('\"' :: cs) =
      (parseStringBody cs).map (fun p => (Json.str (String.mk p.1), p.2)) := by
  simp [parseVal]

theorem parseVal_dash (f : Nat) (cs : List Char) :
    parseVal (f + 1) ('-' :: cs) =
      (parseNatNum cs).map (fun p => (Json.num (-(p.1 : Int)), p.2)) := by
  simp [parseVal]

theorem parseVal_digit (f : Nat) (c : Char) (cs : List Char)
    (h : c.isDigit = true) :
    parseVal (f + 1) (c :: cs) =
      some (.num ((parseDigits (c.toNat - 48) cs).1 : Int),
        (parseDigits (c.toNat - 48) cs).2) := by
  have h1 := ne_of_isDigit h (show ('n').isDigit = false from by decide)
  have h2 := ne_of_isDigit h (show ('t').isDigit = false from by decide)
  have h3 := ne_of_isDigit h (show ('f').isDigit = false from by decide)
  have h4 := ne_of_isDigit h (show ('\"').isDigit = false from by decide)
  have h5 := ne_of_isDigit h (show ('-').isDigit = false from by decide)
  have h6 := ne_of_isDigit h (show ('[').isDigit = false from by decide)
  have h7 := ne_of_isDigit h (show braceL.isDigit = false from by decide)
  simp [parseVal, h, h1, h2, h3, h4, h5, h6, h7]

theorem parseVal_lbrack (f : Nat) (cs : List Char) :
    parseVal (f + 1) ('[' :: cs) =
      (match cs with
       | [] => none
       | d :: ds =>
           if d = ']' then some (.arr .nil, ds)
           else (parseElems f (d :: ds)).map (fun p => (.arr p.1, p.2))) := by
  simp [parseVal]

theorem parseVal_lbrace (f : Nat) (cs : List Char) :
    parseVal (f + 1) (braceL :: cs) =
      (match cs with
       | [] => none
       | d :: ds =>
           if d = braceR then some (.obj .nil, ds)
           else (parseMembers f (d :: ds)).map (fun p => (.obj p.1, p.2))) := by
  simp [parseVal, braceL]

theorem renderJson_head (j : Json) :
    ∃ c cs, renderJson j = c :: cs ∧
      (c.isDigit = true ∨ c = 'n' ∨ c = 't' ∨ c = 'f' ∨ c = '\"' ∨
        c = '-' ∨ c = '[' ∨ c = braceL) := by
  cases j with
  | null =>
      exact ⟨'n', ['u', 'l', 'l'], by simp [renderJson, nullChars], by simp⟩
  | bool b =>
      cases b with
      | false =>
          exact ⟨'f', ['a', 'l', 's', 'e'],
            by simp [renderJson, falseChars], by simp⟩
      | true =>
          exact ⟨'t', ['r', 'u', 'e'], by simp [renderJson, trueChars],
            by simp⟩
  | num n =>
      by_cases hn : n < 0
      · exact ⟨'-', renderNat n.natAbs,
          by simp [renderJson, renderInt, hn], by simp⟩
      · obtain ⟨c, cs, hc, hd⟩ := renderNat_head n.toNat
        exact ⟨c, cs, by simp [renderJson, renderInt, hn, hc], Or.inl hd⟩
  | str s =>
      exact ⟨'\"', escapeChars s.data ++ ['\"'],
        by simp [renderJson, renderString], by simp⟩
  | arr xs =>
      cases xs with
      | nil => exact ⟨'[', [']'], by simp [renderJson], by simp⟩
      | cons x t =>
          exact ⟨'[', renderJson x ++ renderElemsRest t ++ [']'],
            by simp [renderJson], by simp⟩
  | obj fs =>
      cases fs with
      | nil => exact ⟨braceL, [braceR], by simp [renderJson], by simp⟩
      | cons k v t =>
          exact ⟨braceL,
            renderString k ++ ':' :: renderJson v ++
              renderMembersRest t ++ [braceR],
            by simp [renderJson], by simp⟩

theorem renderInt_length_pos (n : Int) : 1 ≤ (renderInt n).length := by
  unfold renderInt
  split
  · simp
  · obtain ⟨c, cs, hc, -⟩ := renderNat_head n.toNat
    rw [hc]
    simp

mutual
theorem sizeJ_le_length : ∀ j : Json, sizeJ j ≤ (renderJson j).length
  | .null => by simp [sizeJ, renderJson, nullChars]
  | .bool b => by cases b <;> simp [sizeJ, renderJson, trueChars, falseChars]
  | .num n => by
      simpa [sizeJ, renderJson] using renderInt_length_pos n
  | .str s => by simp [sizeJ, renderJson, renderString]
  | .arr .nil => by simp [sizeJ, sizeL, renderJson]
  | .arr (.cons x t) => by
      have h1 := sizeJ_le_length x
      have h2 := sizeL_le_length t
      simp only [sizeJ, sizeL, renderJson, List.length_cons,
        List.length_append]
      omega
  | .obj .nil => by simp [sizeJ, sizeF, renderJson]
  | .obj (.cons k v t) => by
      have h1 := sizeJ_le_length v
      have h2 := sizeF_le_length t
      simp only [sizeJ, sizeF, renderJson, List.length_cons,
        List.length_append]
      omega

theorem sizeL_le_length : ∀ t : JsonList, sizeL t ≤ (renderElemsRest t).length
  | .nil => by simp [sizeL, renderElemsRest]
  | .cons x t => by
      have h1 := sizeJ_le_length x
      have h2 := sizeL_le_length t
      simp only [sizeL, renderElemsRest, List.length_cons,
        List.length_append]
      omega

theorem sizeF_le_length : ∀ t : JsonFields,
    sizeF t ≤ (renderMembersRest t).length
  | .nil => by simp [sizeF, renderMembersRest]
  | .cons k v t => by
      have h1 := sizeJ_le_length v
      have h2 := sizeF_le_length t
      simp only [sizeF, renderMembersRest, List.length_cons,
        List.length_append]
      omega
end

theorem sizeJ_pos (j : Json) : 1 ≤ sizeJ j := by
  cases j <;> simp only [sizeJ] <;> omega

theorem parse_render_bundle : ∀ f : Nat,
    (∀ j rest, sizeJ j ≤ f → headIsDigit rest = false →
      parseVal f (renderJson j ++ rest) = some (j, rest)) ∧
    (∀ x t rest, sizeL (.cons x t) ≤ f →
      parseElems f ((renderJson x ++ renderElemsRest t) ++ ']' :: rest) =
        some (.cons x t, rest)) ∧
    (∀ k v t rest, sizeF (.cons k v t) ≤ f →
      parseMembers f
        ((renderString k ++ ':' :: renderJson v ++ renderMembersRest t) ++
          braceR :: rest) =
        some (.cons k v t, rest)) := by
  intro f
  induction f with
  | zero =>
      refine ⟨?_, ?_, ?_⟩
      · intro j rest hsz _
        exact absurd hsz (by have := sizeJ_pos j; omega)
      · intro x t rest hsz
        exact absurd hsz (by simp only [sizeL]; omega)
      · intro k v t rest hsz
        exact absurd hsz (by simp only [sizeF]; omega)
  | succ f ih =>
      obtain ⟨ihV, ihE, ihM⟩ := ih
      refine ⟨?_, ?_, ?_⟩
      · intro j rest hsz hrest
        cases j with
        | null =>
            rw [show renderJson .null ++ rest = 'n' :: 'u' :: 'l' :: 'l' :: rest
              from by simp [renderJson, nullChars]]
            simp [parseVal, expectChars]
        | bool b =>
            cases b with
            | false =>
                rw [show renderJson (.bool false) ++ rest =
                    'f' :: 'a' :: 'l' :: 's' :: 'e' :: rest
                  from by simp [renderJson, falseChars]]
                simp [parseVal, expectChars]
            | true =>
                rw [show renderJson (.bool true) ++ rest =
                    't' :: 'r' :: 'u' :: 'e' :: rest
                  from by simp [renderJson, trueChars]]
                simp [parseVal, expectChars]
        | num n =>
            by_cases hn : n < 0
            · rw [show renderJson (.num n) ++ rest =
                  '-' :: (renderNat n.natAbs ++ rest)
                from by simp [renderJson, renderInt, hn]]
              rw [parseVal_dash]
              rw [parseNatNum_renderNat n.natAbs rest hrest]
              rw [Option.map_some']
              rw [show -((n.natAbs : Nat) : Int) = n from by omega]
            · rw [show renderJson (.num n) ++ rest = renderNat n.toNat ++ rest
                from by simp [renderJson, renderInt, hn]]
              obtain ⟨c, cs, hc, hdig⟩ := renderNat_head n.toNat
              rw [hc, List.cons_append]
              rw [parseVal_digit f c (cs ++ rest) hdig]
              have hp := parseNatNum_renderNat n.toNat rest hrest
              rw [hc, List.cons_append] at hp
              rw [show parseNatNum (c :: (cs ++ rest)) =
                  some (parseDigits (c.toNat - 48) (cs ++ rest))
                from by simp [parseNatNum, hdig]] at hp
              have hpd : parseDigits (c.toNat - 48) (cs ++ rest) =
                  (n.toNat, rest) := by
                simpa using hp
              rw [hpd]
              have : (n.toNat : Int) = n := Int.toNat_of_nonneg (by omega)
              simp [this]
        | str s =>
            rw [show renderJson (.str s) ++ rest =
                '\"' :: (escapeChars s.data ++ '\"' :: rest)
              from by simp [renderJson, renderString]]
            rw [parseVal_quote]
            rw [parseStringBody_escape]
            simp [string_mk_data]
        | arr xs =>
            cases xs with
            | nil =>
                rw [show renderJson (.arr .nil) ++ rest = '[' :: ']' :: rest
                  from by simp [renderJson]]
                rw [parseVal_lbrack]
                simp
            | cons x t =>
                rw [show renderJson (.arr (.cons x t)) ++ rest =
                    '[' :: ((renderJson x ++ renderElemsRest t) ++ ']' :: rest)
                  from by simp [renderJson]]
                rw [parseVal_lbrack]
                obtain ⟨c, cs, hc, hcls⟩ := renderJson_head x
                have hcne : ¬c = ']' := by
                  rcases hcls with h | h | h | h | h | h | h | h
                  · exact ne_of_isDigit h (by decide)
                  all_goals (subst h; decide)
                rw [show (renderJson x ++ renderElemsRest t) ++ ']' :: rest =
                    c :: ((cs ++ renderElemsRest t) ++ ']' :: rest)
                  from by rw [hc]; simp]
                rw [show (match c :: ((cs ++ renderElemsRest t) ++ ']' :: rest)
                      with
                    | [] => none
                    | d :: ds =>
                        if d = ']' then some (Json.arr .nil, ds)
                        else (parseElems f (d :: ds)).map
                          (fun p => (Json.arr p.1, p.2))) =
                    (parseElems f
                      (c :: ((cs ++ renderElemsRest t) ++ ']' :: rest))).map
                      (fun p => (Json.arr p.1, p.2))
                  from by simp [hcne]]
                rw [show c :: ((cs ++ renderElemsRest t) ++ ']' :: rest) =
                    (renderJson x ++ renderElemsRest t) ++ ']' :: rest
                  from by rw [hc]; simp]
                rw [ihE x t rest (by
                  simp only [sizeJ, sizeL] at hsz ⊢
                  omega)]
                rfl
        | obj fs =>
            cases fs with
            | nil =>
                rw [show renderJson (.obj .nil) ++ rest =
                    braceL :: braceR :: rest
                  from by simp [renderJson]]
                rw [parseVal_lbrace]
                simp
            | cons k v t =>
                rw [show renderJson (.obj (.cons k v t)) ++ rest =
                    braceL :: ((renderString k ++ ':' :: renderJson v ++
                      renderMembersRest t) ++ braceR :: rest)
                  from by simp [renderJson]]
                rw [parseVal_lbrace]
                rw [show (renderString k ++ ':' :: renderJson v ++
                      renderMembersRest t) ++ braceR :: rest =
                    '\"' :: ((escapeChars k.data ++ ['\"'] ++
                      ':' :: renderJson v ++ renderMembersRest t) ++
                      braceR :: rest)
                  from by simp [renderString]]
                rw [show (match '\"' :: ((escapeChars k.data ++ ['\"'] ++
                      ':' :: renderJson v ++ renderMembersRest t) ++
                      braceR :: rest) with
                    | [] => none
                    | d :: ds =>
                        if d = braceR then some (Json.obj .nil, ds)
                        else (parseMembers f (d :: ds)).map
                          (fun p => (Json.obj p.1, p.2))) =
                    (parseMembers f ('\"' :: ((escapeChars k.data ++ ['\"'] ++
                      ':' :: renderJson v ++ renderMembersRest t) ++
                      braceR :: rest))).map
                      (fun p => (Json.obj p.1, p.2))
                  from by simp [show ('\"' : Char) ≠ braceR from by decide]]
                rw [show '\"' :: ((escapeChars k.data ++ ['\"'] ++
                      ':' :: renderJson v ++ renderMembersRest t) ++
                      braceR :: rest) =
                    (renderString k ++ ':' :: renderJson v ++
                      renderMembersRest t) ++ braceR :: rest
                  from by simp [renderString]]
                rw [ihM k v t rest (by
                  simp only [sizeJ, sizeF] at hsz ⊢
                  omega)]
                rfl
      · intro x t rest hsz
        have hrest2 : headIsDigit (renderElemsRest t ++ ']' :: rest) = false := by
          cases t with
          | nil => simp [renderElemsRest, headIsDigit]
          | cons y t2 =>
              rw [show renderElemsRest (.cons y t2) ++ ']' :: rest =
                  ',' :: ((renderJson y ++ renderElemsRest t2) ++ ']' :: rest)
                from by simp [renderElemsRest]]
              simp [headIsDigit]
        have hv := ihV x (renderElemsRest t ++ ']' :: rest)
          (by simp only [sizeL] at hsz; omega) hrest2
        rw [show (renderJson x ++ renderElemsRest t) ++ ']' :: rest =
            renderJson x ++ (renderElemsRest t ++ ']' :: rest) from by simp]
        rw [show parseElems (f + 1)
              (renderJson x ++ (renderElemsRest t ++ ']' :: rest)) =
            (match parseVal f
                (renderJson x ++ (renderElemsRest t ++ ']' :: rest)) with
             | none => none
             | some (v, r) =>
                 match r with
                 | ',' :: r2 => (parseElems f r2).map
                     (fun p => (JsonList.cons v p.1, p.2))
                 | ']' :: r2 => some (JsonList.cons v .nil, r2)
                 | _ => none)
          from by simp [parseElems]]
        rw [hv]
        cases t with
        | nil => simp [renderElemsRest]
        | cons y t2 =>
            rw [show renderElemsRest (.cons y t2) ++ ']' :: rest =
                ',' :: ((renderJson y ++ renderElemsRest t2) ++ ']' :: rest)
              from by simp [renderElemsRest]]
            simp only []
            rw [ihE y t2 rest (by simp only [sizeL] at hsz ⊢; omega)]
            rfl
      · intro k v t rest hsz
        rw [show (renderString k ++ ':' :: renderJson v ++
              renderMembersRest t) ++ braceR :: rest =
            '\"' :: (escapeChars k.data ++ '\"' ::
              (':' :: (renderJson v ++ (renderMembersRest t ++
                braceR :: rest))))
          from by simp [renderString]]
        rw [show parseMembers (f + 1) ('\"' :: (escapeChars k.data ++ '\"' ::
              (':' :: (renderJson v ++ (renderMembersRest t ++
                braceR :: rest))))) =
            (match parseStringBody (escapeChars k.data ++ '\"' ::
                (':' :: (renderJson v ++ (renderMembersRest t ++
                  braceR :: rest)))) with
             | none => none
             | some (key, r) =>
                 match r with
                 | ':' :: r2 =>
                     match parseVal f r2 with
                     | none => none
                     | some (val, r3) =>
                         match r3 with
                         | [] => none
                         | c4 :: r4 =>
                             if c4 = ',' then
                               (parseMembers f r4).map
                                 (fun p => (JsonFields.cons (String.mk key)
                                   val p.1, p.2))
                             else if c4 = braceR then
                               some (JsonFields.cons (String.mk key) val .nil,
                                 r4)
                             else none
                 | _ => none)
          from by simp [parseMembers]]
        rw [parseStringBody_escape]
        have hrest2 : headIsDigit (renderMembersRest t ++ braceR :: rest) =
            false := by
          cases t with
          | nil =>
              rw [show renderMembersRest JsonFields.nil ++ braceR :: rest =
                  braceR :: rest from by simp [renderMembersRest]]
              simp only [headIsDigit]
              decide
          | cons k2 v2 t2 =>
              rw [show renderMembersRest (.cons k2 v2 t2) ++ braceR :: rest =
                  ',' :: ((renderString k2 ++ ':' :: renderJson v2 ++
                    renderMembersRest t2) ++ braceR :: rest)
                from by simp [renderMembersRest]]
              simp [headIsDigit]
        have hv := ihV v (renderMembersRest t ++ braceR :: rest)
          (by simp only [sizeF] at hsz; omega) hrest2
        rw [show (':' :: (renderJson v ++ (renderMembersRest t ++
              braceR :: rest)) : List Char) =
            ':' :: (renderJson v ++ (renderMembersRest t ++ braceR :: rest))
          from rfl]
        simp only []
        rw [hv]
        cases t with
        | nil =>
            rw [show renderMembersRest JsonFields.nil ++ braceR :: rest =
                braceR :: rest from by simp [renderMembersRest]]
            simp only [if_true]
            rw [string_mk_data]
            rw [if_neg (show ¬braceR = ',' from by decide)]
        | cons k2 v2 t2 =>
            rw [show renderMembersRest (.cons k2 v2 t2) ++ braceR :: rest =
                ',' :: ((renderString k2 ++ ':' :: renderJson v2 ++
                  renderMembersRest t2) ++ braceR :: rest)
              from by simp [renderMembersRest]]
            simp only [if_true]
            rw [ihM k2 v2 t2 rest (by simp only [sizeF] at hsz ⊢; omega)]
            rw [string_mk_data]
            rfl

theorem jsonToEvent_eventToJson (e : BaseEvent) :
    jsonToEvent (eventToJson e) = some e := by
  obtain ⟨eid, sid, et, d, v, ts, cid⟩ := e
  cases cid with
  | none => simp [eventToJson, jsonToEvent]
  | some c => simp [eventToJson, jsonToEvent]

theorem deserialize_serialize (e : BaseEvent) :
    deserialize (serialize e) = some e := by
  unfold serialize deserialize
  have hdata : (String.mk (renderJson (eventToJson e))).data =
      renderJson (eventToJson e) := rfl
  rw [hdata]
  have hsz : sizeJ (eventToJson e) ≤ (renderJson (eventToJson e)).length + 1 :=
    le_trans (sizeJ_le_length _) (by omega)
  have hb := (parse_render_bundle
      ((renderJson (eventToJson e)).length + 1)).1 (eventToJson e) [] hsz rfl
  rw [List.append_nil] at hb
  rw [hb]
  exact jsonToEvent_eventToJson e

/-- C7: deserializing the serialized textual form of an event yields an
event equal to it on all attributes, including the nested structured data;
consequently serialization is injective (a bijection onto its image) on all
attributes. -/
theorem serialize_roundtrip (e : BaseEvent) :
    deserialize (serialize e) = some e ∧
    ∀ e2, serialize e = serialize e2 → e = e2 := by
  refine ⟨deserialize_serialize e, ?_⟩
  intro e2 heq
  have h1 := deserialize_serialize e
  rw [heq, deserialize_serialize e2] at h1
  exact ((Option.some.injEq _ _).mp h1).symm

/-- Witness for C7 at a concrete event with nested data, quotes and
backslashes in the identifier, and a correlation id. -/
theorem serialize_roundtrip_witness :
    deserialize
        (serialize ⟨"a\"b\\c", "s", "T",
          Json.arr (.cons .null (.cons (.bool true) (.cons (.num (-12)) .nil))),
          3, 5, some "corr"⟩) =
      some ⟨"a\"b\\c", "s", "T",
        Json.arr (.cons .null (.cons (.bool true) (.cons (.num (-12)) .nil))),
        3, 5, some "corr"⟩ ∧
    (⟨"a\"b\\c", "s", "T",
      Json.arr (.cons .null (.cons (.bool true) (.cons (.num (-12)) .nil))),
      3, 5, some "corr"⟩ : BaseEvent) =
      ⟨"a\"b\\c", "s", "T",
        Json.arr (.cons .null (.cons (.bool true) (.cons (.num (-12)) .nil))),
        3, 5, some "corr"⟩ :=
  ⟨(serialize_roundtrip ⟨"a\"b\\c", "s", "T",
      Json.arr (.cons .null (.cons (.bool true) (.cons (.num (-12)) .nil))),
      3, 5, some "corr"⟩).1,
   (serialize_roundtrip ⟨"a\"b\\c", "s", "T",
      Json.arr (.cons .null (.cons (.bool true) (.cons (.num (-12)) .nil))),
      3, 5, some "corr"⟩).2 _ rfl⟩

end Chimera
